import Mathlib

/-!
Verification development for the GBRT decision-tree library.

The repository ships `src/tree/tree.h`, a declarations-only header for
`BaseDecisionTree`, `DecisionTreeClassifier` and `DecisionTreeRegressor`.
The function bodies (criterion, splitter, tree builder, facade) are not part
of the sources, so the operational definitions below are modelled from the
specification document; each such definition carries a doc comment starting
with `Modelled from the spec:`.  Facts about the header itself (its member
declarations, its documented flag convention) are embedded directly from the
header text.

Reals are embedded as rationals `ℚ`; division is the total rational
division (division by zero yields zero), which makes every operation
executable.
-/

attribute [local semireducible] Rat.mul Rat.inv Rat.add Rat.sub

/-- Error taxonomy of section 7 of the spec: `fit`/`predict` return status
codes instead of throwing. -/
inductive Err where
  | InvalidHyperparameter
  | ShapeMismatch
  | NotFitted
  | UnsupportedOperation
  | EmptyInput
deriving DecidableEq, Repr

/-- Hyperparameters of `BaseDecisionTree`, mirroring the constructor
parameter list declared in `src/tree/tree.h` (criterion/splitter strategy
objects are represented by the classification flag dispatch below). -/
structure Hyperparams where
  max_depth : Int
  min_samples_split : Int
  min_samples_leaf : Int
  min_weight_fraction_leaf : ℚ
  max_features : Int
  max_leaf_nodes : Int
  random_state : Int
  class_weight : List ℚ
deriving DecidableEq, Repr

/-- Binary decision tree, the in-memory form produced by the builder.
A `node` stores the split feature, threshold, the recorded impurity
improvement of its split, and the node statistics listed in section 3 of
the spec (impurity, value, sample count, weighted sample count). -/
inductive BTree where
  | leaf (value : List ℚ) (impurity : ℚ) (ns : Nat) (wns : ℚ)
  | node (feature : Nat) (threshold : ℚ) (improvement : ℚ) (impurity : ℚ)
      (value : List ℚ) (ns : Nat) (wns : ℚ) (l r : BTree)
deriving DecidableEq, Repr

/-- Whether the tree is a single leaf. -/
def BTree.isLeaf : BTree → Bool
  | .leaf _ _ _ _ => true
  | _ => false

/-- Number of nodes in the tree. -/
def BTree.size : BTree → Nat
  | .leaf _ _ _ _ => 1
  | .node _ _ _ _ _ _ _ l r => l.size + r.size + 1

/-- A fitted model: the facade state stored by a successful `fit`
(section 4.5: the facade stores the resulting tree and the normalized
per-feature importance vector). -/
structure FittedModel where
  isClf : Bool
  classes : List ℚ
  n_features : Nat
  tree : BTree
  importances : List ℚ
deriving DecidableEq, Repr

instance : DecidableEq (Except Err FittedModel) := fun a b => by
  cases a <;> cases b <;> first
    | exact .isFalse (fun hc => Except.noConfusion hc)
    | (rename_i x y
       exact if h : x = y then .isTrue (by rw [h])
             else .isFalse (by intro hc; cases hc; exact h rfl))

/-- Sum of weights over a subset of sample indices. -/
def subsetWeight (w : Nat → ℚ) (S : List Nat) : ℚ := (S.map w).sum

/-- Weighted count of the samples of a given class inside a subset. -/
def classWeightSum (y : List ℚ) (w : Nat → ℚ) (cl : ℚ) (S : List Nat) : ℚ :=
  (S.map (fun i => if y.getD i 0 = cl then w i else 0)).sum

/-- Build context: the immutable data the builder threads through the
recursion (training data, effective weights, class table, stopping
parameters). -/
structure BuildCtx where
  clf : Bool
  X : List (List ℚ)
  y : List ℚ
  w : Nat → ℚ
  classes : List ℚ
  nSamples : Nat
  nF : Nat
  mss : Nat
  msl : Nat
  mwfl : ℚ
  maxDepth : Int
  maxFeatures : Int
  rootW : ℚ

/-- Feature value of sample `i` at feature column `f`. -/
def xval (c : BuildCtx) (i f : Nat) : ℚ := (c.X.getD i []).getD f 0

/-- Modelled from the spec: Criterion `node_value` (section 4.1) — the
class-weighted counts per class for classification, the weighted mean
target for regression.  The concrete criterion code is not under `src/`. -/
def nodeValueOf (c : BuildCtx) (S : List Nat) : List ℚ :=
  if c.clf then
    c.classes.map (fun cl => classWeightSum c.y c.w cl S)
  else
    let tot := subsetWeight c.w S
    [(S.map (fun i => c.w i * c.y.getD i 0)).sum / tot]

/-- Modelled from the spec: Gini impurity for classification and
variance (mean squared error) for regression (section 4.1); zero on a
zero-weight subset.  The concrete criterion code is not under `src/`. -/
def impurityOf (c : BuildCtx) (S : List Nat) : ℚ :=
  let tot := subsetWeight c.w S
  if tot = 0 then 0
  else if c.clf then
    1 - ((c.classes.map (fun cl => classWeightSum c.y c.w cl S / tot)).map
          (fun q => q * q)).sum
  else
    let mu := (S.map (fun i => c.w i * c.y.getD i 0)).sum / tot
    (S.map (fun i => c.w i * (c.y.getD i 0 - mu) ^ 2)).sum / tot

/-- Modelled from the spec: `impurity_improvement` (section 4.1) — parent
impurity minus the weighted average of child impurities, each child
weighted by its fraction of the parent's total weight. -/
def improvementOf (c : BuildCtx) (parentImp : ℚ) (L R : List Nat) : ℚ :=
  let wL := subsetWeight c.w L
  let wR := subsetWeight c.w R
  let wP := wL + wR
  if wP = 0 then 0
  else parentImp - wL / wP * impurityOf c L - wR / wP * impurityOf c R

/-- Insertion step for sorting rationals in ascending order. -/
def insertQ (a : ℚ) : List ℚ → List ℚ
  | [] => [a]
  | b :: l => if a ≤ b then a :: b :: l else b :: insertQ a l

/-- Ascending insertion sort on rationals. -/
def sortQ (l : List ℚ) : List ℚ := l.foldr insertQ []

/-- Insertion step for sorting naturals in ascending order. -/
def insertN (a : Nat) : List Nat → List Nat
  | [] => [a]
  | b :: l => if a ≤ b then a :: b :: l else b :: insertN a l

/-- Ascending insertion sort on naturals. -/
def sortN (l : List Nat) : List Nat := l.foldr insertN []

/-- Modelled from the spec: the external seedable random source is a
deterministic pure function of its seed; a linear congruential step. -/
def lcgNext (s : Nat) : Nat := (s * 1103515245 + 12345) % 2147483648

/-- Modelled from the spec: seeded uniform sampling without replacement
over a pool of integers (the collaborator of section 6); fully
deterministic in the seed. -/
def sampleWithout : Nat → List Nat → Nat → List Nat
  | 0, _, _ => []
  | k + 1, pool, s =>
    if pool.isEmpty then []
    else
      let s' := lcgNext s
      let j := s' % pool.length
      pool.getD j 0 :: sampleWithout k (pool.eraseIdx j) s'

/-- Modelled from the spec: the candidate feature set of a split search
(section 4.2) — all features when `max_features` covers them (or is
non-positive), else a seeded random subset without replacement, returned
in ascending order so that ties favour the lowest feature index. -/
def candidateFeatures (c : BuildCtx) (s : Nat) : List Nat :=
  if c.maxFeatures ≤ 0 ∨ (c.nF : Int) ≤ c.maxFeatures then List.range c.nF
  else sortN (sampleWithout c.maxFeatures.toNat (List.range c.nF) s)

/-- Candidate thresholds of one feature: midpoints between consecutive
distinct sorted values (section 4.2). -/
def midpoints : List ℚ → List ℚ
  | a :: b :: rest => (if a = b then [] else [(a + b) / 2]) ++ midpoints (b :: rest)
  | _ => []

/-- Split-search result (section 4.2). -/
structure SplitResult where
  feature : Nat
  threshold : ℚ
  improvement : ℚ
  left : List Nat
  right : List Nat
deriving Repr

/-- Modelled from the spec: all valid candidate splits of a node's subset
(section 4.2), scanning the candidate features in ascending order and the
thresholds of each feature in ascending order; a candidate is rejected
when a child would have fewer samples than `min_samples_leaf` or less
weight than `min_weight_fraction_leaf` times the root's total weight. -/
def candidateSplits (c : BuildCtx) (S : List Nat) (fs : List Nat) : List SplitResult :=
  fs.flatMap (fun f =>
    (midpoints (sortQ (S.map (fun i => xval c i f)))).filterMap (fun t =>
      let L := S.filter (fun i => xval c i f ≤ t)
      let R := S.filter (fun i => ¬ xval c i f ≤ t)
      if c.msl ≤ L.length ∧ c.msl ≤ R.length ∧
         c.mwfl * c.rootW ≤ subsetWeight c.w L ∧
         c.mwfl * c.rootW ≤ subsetWeight c.w R then
        some ⟨f, t, improvementOf c (impurityOf c S) L R, L, R⟩
      else none))

/-- Fold keeping the candidate with maximal improvement; a later candidate
replaces the current best only when strictly better, so ties resolve to
the lowest feature index, then the lowest threshold. -/
def chooseBest : Option SplitResult → List SplitResult → Option SplitResult
  | acc, [] => acc
  | acc, sr :: rest =>
    chooseBest
      (match acc with
       | none => some sr
       | some b => if b.improvement < sr.improvement then some sr else some b)
      rest

/-- Modelled from the spec: Splitter `find_best_split` (section 4.2); the
splitter code is not under `src/`. -/
def bestSplitOf (c : BuildCtx) (S : List Nat) (s : Nat) : Option SplitResult :=
  chooseBest none (candidateSplits c S (candidateFeatures c s))

/-- The distinct sample rows of a subset (used by the stopping rule
`fewer than 2 distinct samples remain`). -/
def distinctRows (c : BuildCtx) (S : List Nat) : List (List ℚ) :=
  (S.map (fun i => c.X.getD i [])).dedup

/-- Modelled from the spec: the stopping rules of section 4.3 — a pending
node becomes a leaf when depth reached `max_depth` (if bounded), the
subset is smaller than `min_samples_split`, its weight is below twice the
minimum leaf weight fraction of the root weight, it is pure, or fewer
than two distinct samples remain. -/
def stopCond (c : BuildCtx) (S : List Nat) (d : Nat) : Bool :=
  decide (0 < c.maxDepth ∧ c.maxDepth ≤ (d : Int)) ||
  decide (S.length < c.mss) ||
  decide (subsetWeight c.w S < 2 * c.mwfl * c.rootW) ||
  decide (impurityOf c S = 0) ||
  decide ((distinctRows c S).length < 2)

/-- Leaf construction: node statistics of the subset (section 3). -/
def makeLeaf (c : BuildCtx) (S : List Nat) : BTree :=
  .leaf (nodeValueOf c S) (impurityOf c S) S.length (subsetWeight c.w S)

/-- Modelled from the spec: the depth-first tree builder of section 4.3
(used when `max_leaf_nodes` is unbounded); fuel bounds the recursion and
exceeds any reachable depth because every split strictly shrinks the
subset. -/
def buildDF (c : BuildCtx) : Nat → List Nat → Nat → Nat → BTree
  | 0, S, _, _ => makeLeaf c S
  | fuel + 1, S, d, s =>
    if stopCond c S d then makeLeaf c S
    else
      match bestSplitOf c S s with
      | none => makeLeaf c S
      | some sr =>
        .node sr.feature sr.threshold sr.improvement (impurityOf c S)
          (nodeValueOf c S) S.length (subsetWeight c.w S)
          (buildDF c fuel sr.left (d + 1) (lcgNext (2 * s)))
          (buildDF c fuel sr.right (d + 1) (lcgNext (2 * s + 1)))

/-- Partial tree during best-first growth: decided leaves, pending
frontier entries (subset, depth, seed), and internal split nodes. -/
inductive PTree where
  | pleaf (value : List ℚ) (impurity : ℚ) (ns : Nat) (wns : ℚ)
  | ppend (S : List Nat) (d : Nat) (s : Nat)
  | pnode (feature : Nat) (threshold : ℚ) (improvement : ℚ) (impurity : ℚ)
      (value : List ℚ) (ns : Nat) (wns : ℚ) (l r : PTree)

/-- Leaf count of a partial tree (pending entries count as prospective
leaves for the `max_leaf_nodes` budget). -/
def PTree.leafCount : PTree → Nat
  | .pleaf _ _ _ _ => 1
  | .ppend _ _ _ => 1
  | .pnode _ _ _ _ _ _ _ l r => l.leafCount + r.leafCount

/-- The expandable pending entries of a partial tree, as (path,
improvement) pairs in preorder; a pending entry is expandable when no
stopping rule fires and the splitter finds a valid split. -/
def pendingCandidates (c : BuildCtx) : PTree → List (List Bool × ℚ)
  | .pleaf _ _ _ _ => []
  | .ppend S d s =>
    if stopCond c S d then []
    else
      match bestSplitOf c S s with
      | some sr => [([], sr.improvement)]
      | none => []
  | .pnode _ _ _ _ _ _ _ l r =>
    (pendingCandidates c l).map (fun pr => (false :: pr.1, pr.2)) ++
    (pendingCandidates c r).map (fun pr => (true :: pr.1, pr.2))

/-- Pick the candidate with maximal improvement (first in preorder on
ties), returning its path. -/
def pickBest : Option (List Bool × ℚ) → List (List Bool × ℚ) → Option (List Bool)
  | acc, [] => acc.map Prod.fst
  | acc, x :: xs =>
    pickBest
      (match acc with
       | none => some x
       | some b => if b.2 < x.2 then some x else some b)
      xs

/-- Expand the pending entry at the given path into a split node with two
pending children (best-first growth step of section 4.3). -/
def expandAt (c : BuildCtx) : PTree → List Bool → PTree
  | .ppend S d s, [] =>
    (match bestSplitOf c S s with
     | some sr =>
       .pnode sr.feature sr.threshold sr.improvement (impurityOf c S)
         (nodeValueOf c S) S.length (subsetWeight c.w S)
         (.ppend sr.left (d + 1) (lcgNext (2 * s)))
         (.ppend sr.right (d + 1) (lcgNext (2 * s + 1)))
     | none =>
       .pleaf (nodeValueOf c S) (impurityOf c S) S.length (subsetWeight c.w S))
  | .pnode f t iv ip v ns wns l r, false :: p => .pnode f t iv ip v ns wns (expandAt c l p) r
  | .pnode f t iv ip v ns wns l r, true :: p => .pnode f t iv ip v ns wns l (expandAt c r p)
  | t, _ => t

/-- Modelled from the spec: best-first growth loop of section 4.3 — while
the leaf budget is not exhausted, expand the pending entry whose split has
the greatest impurity improvement. -/
def bfLoop (c : BuildCtx) (maxLeaves : Nat) : Nat → PTree → PTree
  | 0, t => t
  | fuel + 1, t =>
    if maxLeaves ≤ t.leafCount then t
    else
      match pickBest none (pendingCandidates c t) with
      | none => t
      | some p => bfLoop c maxLeaves fuel (expandAt c t p)

/-- Convert the final partial tree into a decision tree: remaining pending
entries become leaves (section 4.3). -/
def finalizePTree (c : BuildCtx) : PTree → BTree
  | .pleaf v ip ns wns => .leaf v ip ns wns
  | .ppend S _ _ => makeLeaf c S
  | .pnode f t iv ip v ns wns l r =>
    .node f t iv ip v ns wns (finalizePTree c l) (finalizePTree c r)

/-- Index of a class label in the class table (dense class-index mapping
of section 9). -/
def classIndex (classes : List ℚ) (v : ℚ) : Nat :=
  classes.findIdx (fun cl => decide (cl = v))

/-- Modelled from the spec: the effective per-sample weight (section 4.5) —
`sample_weight` defaulted to all ones when empty, multiplied by the
per-class `class_weight` factor keyed by the sample's class when
classifying with a non-empty class weight vector. -/
def effWeight (p : Hyperparams) (clf : Bool) (y sw : List ℚ) : Nat → ℚ :=
  fun i =>
    (if sw.isEmpty then 1 else sw.getD i 0) *
    (if clf ∧ ¬ p.class_weight.isEmpty then
       p.class_weight.getD (classIndex y.dedup (y.getD i 0)) 1
     else 1)

/-- The build context assembled by `fit` from validated inputs. -/
def mkCtx (p : Hyperparams) (clf : Bool) (X : List (List ℚ)) (y sw : List ℚ) : BuildCtx :=
  { clf := clf, X := X, y := y, w := effWeight p clf y sw, classes := y.dedup,
    nSamples := X.length, nF := (X.headD []).length,
    mss := p.min_samples_split.toNat, msl := p.min_samples_leaf.toNat,
    mwfl := p.min_weight_fraction_leaf, maxDepth := p.max_depth,
    maxFeatures := p.max_features,
    rootW := subsetWeight (effWeight p clf y sw) (List.range X.length) }

/-- Modelled from the spec: the tree produced by `fit` — depth-first when
`max_leaf_nodes` is non-positive (unbounded), best-first under a leaf
budget otherwise (section 4.3). -/
def builtTree (p : Hyperparams) (clf : Bool) (X : List (List ℚ)) (y sw : List ℚ) : BTree :=
  if p.max_leaf_nodes ≤ 0 then
    buildDF (mkCtx p clf X y sw) (X.length + 1) (List.range X.length) 0 p.random_state.toNat
  else
    finalizePTree (mkCtx p clf X y sw)
      (bfLoop (mkCtx p clf X y sw) p.max_leaf_nodes.toNat
        (X.length + p.max_leaf_nodes.toNat + 1)
        (.ppend (List.range X.length) 0 p.random_state.toNat))

/-- Per-feature importance accumulator over a built tree: each split node
contributes its recorded improvement scaled by its weighted sample count
over the root weight (section 4.3). -/
def importanceAccum (nF : Nat) (rootW : ℚ) : BTree → List ℚ
  | .leaf _ _ _ _ => List.replicate nF 0
  | .node f _ iv _ _ _ wns l r =>
    let v := List.zipWith (· + ·) (importanceAccum nF rootW l) (importanceAccum nF rootW r)
    v.set f (v.getD f 0 + iv * wns / rootW)

/-- Normalization of the importance accumulator: divide each entry by the
total (rational division by a zero total yields the all-zero vector). -/
def normalizeImp (v : List ℚ) : List ℚ := v.map (fun x => x / v.sum)

/-- Modelled from the spec: the model stored by a successful `fit`
(section 4.5) — the class table, the built tree, and the normalized
importance vector. -/
def buildModel (p : Hyperparams) (clf : Bool) (X : List (List ℚ)) (y sw : List ℚ) : FittedModel :=
  { isClf := clf, classes := y.dedup, n_features := (X.headD []).length,
    tree := builtTree p clf X y sw,
    importances :=
      normalizeImp (importanceAccum (X.headD []).length (mkCtx p clf X y sw).rootW
        (builtTree p clf X y sw)) }

/-- Out-of-range hyperparameters (section 4.5): `min_samples_split ≥ 2`,
`min_samples_leaf ≥ 1`, `0 ≤ min_weight_fraction_leaf ≤ 1/2`. -/
def badHyper (p : Hyperparams) : Prop :=
  p.min_samples_split < 2 ∨ p.min_samples_leaf < 1 ∨
  p.min_weight_fraction_leaf < 0 ∨ (1 / 2 : ℚ) < p.min_weight_fraction_leaf

instance (p : Hyperparams) : Decidable (badHyper p) := by
  unfold badHyper; infer_instance

/-- Empty input: zero samples or zero features (section 7). -/
def emptyInput (X : List (List ℚ)) : Prop := X.length = 0 ∨ (X.headD []).length = 0

instance (X : List (List ℚ)) : Decidable (emptyInput X) := by
  unfold emptyInput; infer_instance

/-- Shape mismatch: X row count differs from y length, or a non-empty
sample_weight differs in length (section 4.5). -/
def shapeBad (X : List (List ℚ)) (y sw : List ℚ) : Prop :=
  X.length ≠ y.length ∨ (sw ≠ [] ∧ sw.length ≠ X.length)

instance (X : List (List ℚ)) (y sw : List ℚ) : Decidable (shapeBad X y sw) := by
  unfold shapeBad; infer_instance

/-- Modelled from the spec: the eager validation the facade performs
before invoking the builder (sections 4.5 and 7), returning the distinct
error value of the first failing check. -/
def validateFit (p : Hyperparams) (clf : Bool) (X : List (List ℚ)) (y sw : List ℚ) : Option Err :=
  if badHyper p then some .InvalidHyperparameter
  else if emptyInput X then some .EmptyInput
  else if shapeBad X y sw then some .ShapeMismatch
  else if ¬ clf ∧ p.class_weight ≠ [] then some .UnsupportedOperation
  else none

/-- Modelled from the spec: `BaseDecisionTree::fit` (declared in
`src/tree/tree.h`, body not under `src/`) — validate eagerly, then build;
returns a status instead of throwing. -/
def fitF (p : Hyperparams) (clf : Bool) (X : List (List ℚ)) (y sw : List ℚ) :
    Except Err FittedModel :=
  match validateFit p clf X y sw with
  | some e => .error e
  | none => .ok (buildModel p clf X y sw)

/-- Root-to-leaf traversal of section 4.4: go left on
`sample[feature] <= threshold`, return the reached leaf's value. -/
def predictValue : BTree → List ℚ → List ℚ
  | .leaf v _ _ _, _ => v
  | .node f t _ _ _ _ _ l r, x =>
    if x.getD f 0 ≤ t then predictValue l x else predictValue r x

/-- Index-tracking scan for the argmax with lowest-index tie-breaking. -/
def argmaxAux : List ℚ → Nat → Nat → ℚ → Nat
  | [], _, bi, _ => bi
  | a :: rest, i, bi, bv =>
    if bv < a then argmaxAux rest (i + 1) i a else argmaxAux rest (i + 1) bi bv

/-- Argmax of a value vector, ties broken by the lowest index
(section 4.4). -/
def argmaxIdx : List ℚ → Nat
  | [] => 0
  | a :: rest => argmaxAux rest 1 0 a

/-- Modelled from the spec: `predict` (section 4.4) — per row, the class
label of the argmax of the reached leaf value for a classifier, the first
component of the leaf value for a regressor. -/
def predictM (m : FittedModel) (Z : List (List ℚ)) : List ℚ :=
  Z.map (fun x =>
    let v := predictValue m.tree x
    if m.isClf then m.classes.getD (argmaxIdx v) 0 else v.getD 0 0)

/-- Modelled from the spec: `predict_proba` (sections 4.4 and 6) — the
reached leaf value normalized to sum one, classification only; a
regressor fails with `UnsupportedOperation`. -/
def predictProbaM (m : FittedModel) (Z : List (List ℚ)) :
    Except Err (List (List ℚ)) :=
  if m.isClf then
    .ok (Z.map (fun x =>
      let v := predictValue m.tree x
      v.map (fun q => q / v.sum)))
  else .error .UnsupportedOperation

/-- Observable facade state: hyperparameters, the dispatch flag, and the
fitted model when a `fit` has succeeded (`none` is the NotFitted state). -/
structure ModelState where
  params : Hyperparams
  clf : Bool
  fitted : Option FittedModel

/-- Modelled from the spec: stateful `fit` on the facade — on validation
failure the status is returned and the state is untouched; on success the
fitted model is stored. -/
def fitState (m : ModelState) (X : List (List ℚ)) (y sw : List ℚ) :
    Option Err × ModelState :=
  match fitF m.params m.clf X y sw with
  | .error e => (some e, m)
  | .ok fm => (none, { m with fitted := some fm })

/-- Modelled from the spec: `predict` on the facade fails with `NotFitted`
before a successful fit (section 7). -/
def predictState (m : ModelState) (Z : List (List ℚ)) : Except Err (List ℚ) :=
  match m.fitted with
  | none => .error .NotFitted
  | some fm => .ok (predictM fm Z)

/-- Modelled from the spec: `feature_importances` on the facade fails with
`NotFitted` before a successful fit (section 4.5). -/
def featureImportancesState (m : ModelState) : Except Err (List ℚ) :=
  match m.fitted with
  | none => .error .NotFitted
  | some fm => .ok fm.importances

/-- One element of the flat node array of section 3: `feature_index` is
`-1` for a leaf, children are indices into the array with `-1` as the
unset sentinel for leaves. -/
structure NodeRec where
  feature_index : Int
  threshold : ℚ
  left_child : Int
  right_child : Int
  impurity : ℚ
  n_node_samples : Nat
  weighted_n_node_samples : ℚ
  value : List ℚ
deriving DecidableEq, Repr

/-- Flatten a built tree into the node array in creation order of the
depth-first builder (a node, then its whole left subtree, then its right
subtree), assigning indices starting at `b`. -/
def flattenAux : BTree → Nat → List NodeRec
  | .leaf v ip ns wns, _ =>
    [{ feature_index := -1, threshold := 0, left_child := -1, right_child := -1,
       impurity := ip, n_node_samples := ns, weighted_n_node_samples := wns, value := v }]
  | .node f t _ ip v ns wns l r, b =>
    { feature_index := (f : Int), threshold := t, left_child := ((b + 1 : Nat) : Int),
      right_child := ((b + 1 + l.size : Nat) : Int), impurity := ip,
      n_node_samples := ns, weighted_n_node_samples := wns, value := v } ::
    (flattenAux l (b + 1) ++ flattenAux r (b + 1 + l.size))

/-- The node array of a built tree, with the root at index 0. -/
def flattenTree (t : BTree) : List NodeRec := flattenAux t 0

/-- Positional lookup in a node array. -/
def nthNode : List NodeRec → Nat → Option NodeRec
  | [], _ => none
  | a :: _, 0 => some a
  | _ :: l, k + 1 => nthNode l k

/-- The node-array invariant of section 3: the array is non-empty; every
non-leaf node has two valid child indices strictly greater than its own
index; every leaf has `feature_index = -1` and both children unset; and
index 0 is the root (no node's child index is 0). -/
def wellFormedNodes (ns : List NodeRec) : Prop :=
  ns ≠ [] ∧
  ∀ k nd, nthNode ns k = some nd →
    ((nd.feature_index = -1 ∧ nd.left_child = -1 ∧ nd.right_child = -1) ∨
     (0 ≤ nd.feature_index ∧
      (k : Int) < nd.left_child ∧ nd.left_child < (ns.length : Int) ∧
      (k : Int) < nd.right_child ∧ nd.right_child < (ns.length : Int))) ∧
    nd.left_child ≠ 0 ∧ nd.right_child ≠ 0

/-- The leaf values of a built tree, in left-to-right order. -/
def leafValues : BTree → List (List ℚ)
  | .leaf v _ _ _ => [v]
  | .node _ _ _ _ _ _ _ l r => leafValues l ++ leafValues r

/-- A well-formed sample subset during the build: non-empty and made of
in-range sample indices. -/
def goodSub (c : BuildCtx) (S : List Nat) : Prop :=
  S ≠ [] ∧ ∀ i ∈ S, i < c.nSamples

/-- Every leaf value of the tree is the node value of some well-formed
subset (the leaf-provenance invariant of the builder). -/
def goodLeafValues (c : BuildCtx) (t : BTree) : Prop :=
  ∀ v ∈ leafValues t, ∃ S, goodSub c S ∧ v = nodeValueOf c S

/-- Leaf-provenance invariant on a partial tree during best-first
growth. -/
def pendGood (c : BuildCtx) : PTree → Prop
  | .pleaf v _ _ _ => ∃ S, goodSub c S ∧ v = nodeValueOf c S
  | .ppend S _ _ => goodSub c S
  | .pnode _ _ _ _ _ _ _ l r => pendGood c l ∧ pendGood c r

/-- The data member declaration names of `class BaseDecisionTree`,
transcribed in declaration order from `src/tree/tree.h` (the public block
ending the class, lines 72-89 of the header). -/
def baseDecisionTreeMembers : List String :=
  ["_criterion", "_splitter", "_max_depth", "_min_samples_split",
   "_min_samples_leaf", "_min_weight_fraction_leaf", "_max_features",
   "_random_state", "_max_leaf_nodes", "_class_weight", "_n_samples",
   "_n_features", "_is_classification", "_tree", "_max_features"]

/-- The `is_classification` convention documented on the
`BaseDecisionTree` constructor in `src/tree/tree.h`: the comment reads
`0 for classification, 1 for regression`, so value 0 selects
classification behaviour. -/
def commentConventionIsClf (v : Int) : Bool := decide (v = 0)

/-- Modelled from the spec: the convention the rest of the class
hierarchy applies to the flag, which the spec's open question reports as
`used oppositely elsewhere in the class hierarchy naming` — there value 1
selects classification behaviour.  The consuming code is not under
`src/`. -/
def hierarchyConventionIsClf (v : Int) : Bool := decide (v = 1)

/-- Fixture: hyperparameters of the end-to-end classification example of
section 8 (`min_samples_split = 2`, unbounded depth, all features
searched). -/
def exampleParams : Hyperparams :=
  { max_depth := 0, min_samples_split := 2, min_samples_leaf := 1,
    min_weight_fraction_leaf := 0, max_features := 2, max_leaf_nodes := 0,
    random_state := 42, class_weight := [] }

/-- Fixture: the four training rows of the end-to-end example. -/
def exampleX : List (List ℚ) := [[0, 0], [0, 1], [1, 0], [1, 1]]

/-- Fixture: the targets of the end-to-end example. -/
def exampleY : List ℚ := [0, 0, 1, 1]

/-- The model the end-to-end example produces: a root split on feature 0
at threshold 1/2 with two pure leaves, and importances `[1, 0]`. -/
def exampleModel : FittedModel :=
  { isClf := true, classes := [0, 1], n_features := 2,
    tree := .node 0 (1 / 2) (1 / 2) (1 / 2) [2, 2] 4 4
      (.leaf [2, 0] 0 2 2) (.leaf [0, 2] 0 2 2),
    importances := [1, 0] }

/-- Fixture: hyperparameters for the one-feature datasets below. -/
def oneFeatParams : Hyperparams :=
  { max_depth := 0, min_samples_split := 2, min_samples_leaf := 1,
    min_weight_fraction_leaf := 0, max_features := 1, max_leaf_nodes := 0,
    random_state := 7, class_weight := [] }

/-- Fixture: the one-feature XOR-like dataset whose unique candidate
split has zero impurity improvement. -/
def xorX : List (List ℚ) := [[0], [0], [1], [1]]

/-- Fixture: targets of the XOR-like dataset. -/
def xorY : List ℚ := [0, 1, 0, 1]

/-- The model fitted on the XOR-like dataset: one split of improvement 0
and two impure leaves, so the importance accumulator totals zero. -/
def xorModel : FittedModel :=
  { isClf := true, classes := [0, 1], n_features := 1,
    tree := .node 0 (1 / 2) 0 (1 / 2) [2, 2] 4 4
      (.leaf [1, 1] (1 / 2) 2 2) (.leaf [1, 1] (1 / 2) 2 2),
    importances := [0] }

/-- The model fitted on a single sample whose sample weight is zero: the
single leaf's value vector is all-zero. -/
def zeroWeightModel : FittedModel :=
  { isClf := true, classes := [0], n_features := 1,
    tree := .leaf [0] 0 1 0, importances := [0] }

/-- The model of a small regression fit, used to exercise the regressor
facade. -/
def regModel : FittedModel :=
  { isClf := false, classes := [1, 2], n_features := 1,
    tree := .node 0 (3 / 2) (1 / 4) (1 / 4) [3 / 2] 2 2
      (.leaf [1] 0 1 1) (.leaf [2] 0 1 1),
    importances := [1] }

/-- Fixture: a facade state that has never been fitted. -/
def notFittedState : ModelState :=
  { params := exampleParams, clf := true, fitted := none }

/-- Fixture: invalid hyperparameters (`min_samples_split = 1 < 2`). -/
def invalidParams : Hyperparams :=
  { max_depth := 0, min_samples_split := 1, min_samples_leaf := 1,
    min_weight_fraction_leaf := 0, max_features := 1, max_leaf_nodes := 0,
    random_state := 0, class_weight := [] }

/-- Fixture: a facade state carrying invalid hyperparameters, still
unfitted. -/
def invalidState : ModelState :=
  { params := invalidParams, clf := true, fitted := none }

/-! ## Basic facts about the facade -/

/-- A successful `fit` result is exactly the built model. -/
theorem fitF_ok_eq {p : Hyperparams} {clf : Bool} {X : List (List ℚ)} {y sw : List ℚ}
    {m : FittedModel} (h : fitF p clf X y sw = .ok m) : m = buildModel p clf X y sw := by
  unfold fitF at h
  cases hv : validateFit p clf X y sw <;> rw [hv] at h <;> simp_all

/-- A successful `fit` presupposes that every validation check passed. -/
theorem fitF_ok_validate {p : Hyperparams} {clf : Bool} {X : List (List ℚ)} {y sw : List ℚ}
    {m : FittedModel} (h : fitF p clf X y sw = .ok m) : validateFit p clf X y sw = none := by
  unfold fitF at h
  cases hv : validateFit p clf X y sw <;> rw [hv] at h <;> simp_all

/-- Unfolding of a passing validation into its four checks. -/
theorem validateFit_none_iff (p : Hyperparams) (clf : Bool) (X : List (List ℚ)) (y sw : List ℚ) :
    validateFit p clf X y sw = none ↔
      ¬ badHyper p ∧ ¬ emptyInput X ∧ ¬ shapeBad X y sw ∧
      ¬ (¬ clf = true ∧ p.class_weight ≠ []) := by
  unfold validateFit
  split_ifs <;> simp_all

/-- Field computation lemma for the built model. -/
theorem buildModel_isClf (p : Hyperparams) (clf : Bool) (X : List (List ℚ)) (y sw : List ℚ) :
    (buildModel p clf X y sw).isClf = clf := rfl

/-- Field computation lemma for the built model. -/
theorem buildModel_tree (p : Hyperparams) (clf : Bool) (X : List (List ℚ)) (y sw : List ℚ) :
    (buildModel p clf X y sw).tree = builtTree p clf X y sw := rfl

/-- Field computation lemma for the built model. -/
theorem buildModel_importances (p : Hyperparams) (clf : Bool) (X : List (List ℚ)) (y sw : List ℚ) :
    (buildModel p clf X y sw).importances =
      normalizeImp (importanceAccum (X.headD []).length (mkCtx p clf X y sw).rootW
        (builtTree p clf X y sw)) := rfl

/-- Field computation lemma for the built model. -/
theorem buildModel_n_features (p : Hyperparams) (clf : Bool) (X : List (List ℚ)) (y sw : List ℚ) :
    (buildModel p clf X y sw).n_features = (X.headD []).length := rfl

/-! ## C1, C2, C3, C4, C6 -/

/-- C1: `fit` is deterministic — with identical hyperparameters
(`random_state` included, since the feature sampler is a pure function of
the seed) and identical data, two fits agree as whole results, produce
structurally identical trees (same splits and leaf values), and their
predictions agree on every input. -/
theorem c1_fit_deterministic (p₁ p₂ : Hyperparams) (clf : Bool) (X : List (List ℚ))
    (y sw : List ℚ) (h : p₁ = p₂) :
    fitF p₁ clf X y sw = fitF p₂ clf X y sw ∧
    ∀ m₁ m₂, fitF p₁ clf X y sw = .ok m₁ → fitF p₂ clf X y sw = .ok m₂ →
      m₁.tree = m₂.tree ∧ ∀ Z, predictM m₁ Z = predictM m₂ Z := by
  subst h
  refine ⟨rfl, fun m₁ m₂ h₁ h₂ => ?_⟩
  rw [h₁] at h₂
  cases h₂
  exact ⟨rfl, fun _ => rfl⟩

/-- Witness for C1 at the end-to-end example dataset. -/
theorem c1_witness :
    fitF exampleParams true exampleX exampleY [] = fitF exampleParams true exampleX exampleY [] ∧
    ∀ m₁ m₂, fitF exampleParams true exampleX exampleY [] = .ok m₁ →
      fitF exampleParams true exampleX exampleY [] = .ok m₂ →
      m₁.tree = m₂.tree ∧ ∀ Z, predictM m₁ Z = predictM m₂ Z :=
  c1_fit_deterministic exampleParams exampleParams true exampleX exampleY [] rfl

/-- C2: the end-to-end example — fitting `X = [[0,0],[0,1],[1,0],[1,1]]`,
`y = [0,0,1,1]` with `min_samples_split = 2` and unbounded depth yields a
root split on feature 0 at threshold 1/2 with two pure leaves (impurity 0),
`predict` returns `[0,0,1,1]` and `feature_importances` is `[1, 0]`. -/
theorem c2_end_to_end :
    fitF exampleParams true exampleX exampleY [] = .ok exampleModel ∧
    exampleModel.tree = .node 0 (1 / 2) (1 / 2) (1 / 2) [2, 2] 4 4
      (.leaf [2, 0] 0 2 2) (.leaf [0, 2] 0 2 2) ∧
    predictM exampleModel exampleX = [0, 0, 1, 1] ∧
    exampleModel.importances = [1, 0] :=
  ⟨by decide, rfl, by decide, rfl⟩

/-- C3: `fit` always returns a status code; each class of invalid input
is reported with its own distinct error value, and when every check
passes the builder output is returned — the checks happen in the facade,
prior to any tree building. -/
theorem c3_fit_status (p : Hyperparams) (clf : Bool) (X : List (List ℚ)) (y sw : List ℚ) :
    ((∃ e, fitF p clf X y sw = .error e) ∨ (∃ m, fitF p clf X y sw = .ok m)) ∧
    (badHyper p → fitF p clf X y sw = .error .InvalidHyperparameter) ∧
    (¬ badHyper p → emptyInput X → fitF p clf X y sw = .error .EmptyInput) ∧
    (¬ badHyper p → ¬ emptyInput X → shapeBad X y sw →
      fitF p clf X y sw = .error .ShapeMismatch) ∧
    (¬ badHyper p → ¬ emptyInput X → ¬ shapeBad X y sw →
      (¬ clf = true ∧ p.class_weight ≠ []) →
      fitF p clf X y sw = .error .UnsupportedOperation) ∧
    (validateFit p clf X y sw = none → fitF p clf X y sw = .ok (buildModel p clf X y sw)) := by
  unfold fitF validateFit
  split_ifs <;> simp_all

/-- Witness for C3: `min_samples_split = 1` is rejected with
`InvalidHyperparameter`. -/
theorem c3_witness :
    fitF invalidParams true [[0]] [0] [] = .error .InvalidHyperparameter :=
  (c3_fit_status invalidParams true [[0]] [0] []).2.1 (by decide)

/-- C4: a failed `fit` leaves the facade state exactly as it was, so
`predict` and `feature_importances` behave afterwards exactly as before
the failed call. -/
theorem c4_failed_fit_state (m : ModelState) (X : List (List ℚ)) (y sw : List ℚ)
    (e : Err) (m' : ModelState) (h : fitState m X y sw = (some e, m')) :
    m' = m ∧ (∀ Z, predictState m' Z = predictState m Z) ∧
    featureImportancesState m' = featureImportancesState m := by
  unfold fitState at h
  cases hf : fitF m.params m.clf X y sw <;> rw [hf] at h
  · cases h
    exact ⟨rfl, fun _ => rfl, rfl⟩
  · cases h

/-- Witness for C4: an invalid fit on a never-fitted facade returns the
error and leaves the state untouched. -/
theorem c4_witness :
    invalidState = invalidState ∧
    (∀ Z, predictState invalidState Z = predictState invalidState Z) ∧
    featureImportancesState invalidState = featureImportancesState invalidState :=
  c4_failed_fit_state invalidState [[0]] [0] [] .InvalidHyperparameter invalidState rfl

/-- C6: `predict_proba` on any fitted regressor fails with
`UnsupportedOperation`, whatever the input. -/
theorem c6_predict_proba_regressor (p : Hyperparams) (X : List (List ℚ)) (y sw : List ℚ)
    (m : FittedModel) (Z : List (List ℚ)) (h : fitF p false X y sw = .ok m) :
    predictProbaM m Z = .error .UnsupportedOperation := by
  have hm := fitF_ok_eq h
  subst hm
  unfold predictProbaM
  rw [buildModel_isClf]
  simp

/-- Witness for C6 at a concrete regression fit. -/
theorem c6_witness : predictProbaM regModel [[1]] = .error .UnsupportedOperation :=
  c6_predict_proba_regressor oneFeatParams [[1], [2]] [1, 2] [] regModel [[1]] (by decide)

/-! ## C7: feature importances -/

/-- The importance accumulator always has one entry per feature. -/
theorem importanceAccum_length (nF : Nat) (rootW : ℚ) :
    ∀ t : BTree, (importanceAccum nF rootW t).length = nF := by
  intro t
  induction t with
  | leaf v ip ns wns => simp [importanceAccum]
  | node f th iv ip v ns wns l r ihl ihr =>
    simp [importanceAccum, List.length_set, List.length_zipWith, ihl, ihr]

/-- Distributing a sum over the division by a fixed rational. -/
theorem sum_map_div (v : List ℚ) (s : ℚ) :
    (v.map (fun x => x / s)).sum = v.sum / s := by
  induction v with
  | nil => simp
  | cons a v ih => simp [ih, add_div]

/-- Normalization either produces a vector summing to one or the all-zero
vector (the latter exactly when the accumulator total is zero). -/
theorem normalizeImp_dichotomy (v : List ℚ) :
    (normalizeImp v).sum = 1 ∨ ∀ q ∈ normalizeImp v, q = 0 := by
  by_cases h : v.sum = 0
  · right
    intro q hq
    rcases List.mem_map.mp hq with ⟨x, _, hx⟩
    simp [← hx, h]
  · left
    rw [normalizeImp, sum_map_div, div_self h]

/-- Counterexample for C7: on the one-feature XOR-like dataset the fitted
tree is not a single leaf, yet `feature_importances` is `[0]` — the only
split has zero impurity improvement, so the normalized vector does not
sum to 1 even though the tree has a split node. -/
theorem c7_counterexample :
    fitF oneFeatParams true xorX xorY [] = .ok xorModel ∧
    xorModel.tree.isLeaf = false ∧
    xorModel.importances = [0] ∧
    xorModel.importances.sum ≠ 1 :=
  ⟨by decide, rfl, rfl, by decide⟩

/-- C7 (amended): `feature_importances` of a fitted model has one entry
per feature and either sums to 1 or is all-zero; it is all-zero whenever
the fitted tree is a single leaf (and, as the counterexample shows, also
whenever the accumulated improvements total zero). -/
theorem c7_importances (p : Hyperparams) (clf : Bool) (X : List (List ℚ)) (y sw : List ℚ)
    (m : FittedModel) (h : fitF p clf X y sw = .ok m) :
    m.importances.length = m.n_features ∧
    (m.importances.sum = 1 ∨ ∀ q ∈ m.importances, q = 0) ∧
    (m.tree.isLeaf = true → ∀ q ∈ m.importances, q = 0) := by
  have hm := fitF_ok_eq h
  subst hm
  rw [buildModel_importances, buildModel_n_features, buildModel_tree]
  refine ⟨?_, normalizeImp_dichotomy _, ?_⟩
  · rw [normalizeImp, List.length_map, importanceAccum_length]
  · intro hleaf q hq
    cases ht : builtTree p clf X y sw with
    | leaf v ip ns wns =>
      rw [ht] at hq
      rcases List.mem_map.mp hq with ⟨x, hx, hxq⟩
      have hx0 : x = 0 := by
        simp [importanceAccum, List.mem_replicate] at hx
        exact hx.2
      simp [← hxq, hx0]
    | node f th iv ip v ns wns l r =>
      rw [ht] at hleaf
      simp [BTree.isLeaf] at hleaf

/-- Witness for C7 at the end-to-end example fit. -/
theorem c7_witness :
    exampleModel.importances.length = exampleModel.n_features ∧
    (exampleModel.importances.sum = 1 ∨ ∀ q ∈ exampleModel.importances, q = 0) ∧
    (exampleModel.tree.isLeaf = true → ∀ q ∈ exampleModel.importances, q = 0) :=
  c7_importances exampleParams true exampleX exampleY [] exampleModel (by decide)

/-! ## C8: the `is_classification` flag convention -/

/-- C8 (amended): the flag does not follow one consistent convention —
the constructor comment of `src/tree/tree.h` maps flag value 0 to
classification while the class hierarchy applies the opposite mapping, so
the two consumption sites disagree at both flag values. -/
theorem c8_flag_conventions_disagree :
    commentConventionIsClf 0 ≠ hierarchyConventionIsClf 0 ∧
    commentConventionIsClf 1 ≠ hierarchyConventionIsClf 1 := by
  constructor <;> decide

/-- Counterexample for C8 as stated: at flag value 0 the documented
comment convention selects classification while the hierarchy convention
selects regression, so the flag is not consumed under one consistent
convention. -/
theorem c8_counterexample :
    commentConventionIsClf 0 = true ∧ hierarchyConventionIsClf 0 = false := by
  constructor <;> decide

/-! ## C10: duplicate `_max_features` member -/

/-- C10 is violated by the header itself: the member declaration list of
`BaseDecisionTree` contains `_max_features` twice (`src/tree/tree.h`
declares `int _max_features;` both among the hyperparameter members and
again after `_tree`), so the names are not distinct — which is ill-formed
C++ (member redeclaration). -/
theorem c10_member_duplication :
    ¬ baseDecisionTreeMembers.Nodup ∧
    baseDecisionTreeMembers.count "_max_features" = 2 := by
  constructor <;> decide

/-! ## C9: the node-array invariant -/

/-- Positional lookup ignores the right part of an append while the index
is inside the left part. -/
theorem nthNode_append_left :
    ∀ (l₁ l₂ : List NodeRec) (k : Nat), k < l₁.length →
      nthNode (l₁ ++ l₂) k = nthNode l₁ k := by
  intro l₁
  induction l₁ with
  | nil => intro l₂ k hk; cases hk
  | cons a l ih =>
    intro l₂ k hk
    cases k with
    | zero => rfl
    | succ k => exact ih l₂ k (Nat.lt_of_succ_lt_succ hk)

/-- Positional lookup skips the left part of an append once the index is
past it. -/
theorem nthNode_append_right :
    ∀ (l₁ l₂ : List NodeRec) (k : Nat), l₁.length ≤ k →
      nthNode (l₁ ++ l₂) k = nthNode l₂ (k - l₁.length) := by
  intro l₁
  induction l₁ with
  | nil => intro l₂ k _; rfl
  | cons a l ih =>
    intro l₂ k hk
    cases k with
    | zero => cases hk
    | succ k =>
      have hstep := ih l₂ k (Nat.le_of_succ_le_succ hk)
      simpa [Nat.succ_sub_succ] using hstep

/-- The flattened array has exactly one entry per tree node. -/
theorem flattenAux_length : ∀ (t : BTree) (b : Nat), (flattenAux t b).length = t.size := by
  intro t
  induction t with
  | leaf v ip ns wns => intro b; rfl
  | node f th iv ip v ns wns l r ihl ihr =>
    intro b
    simp [flattenAux, BTree.size, ihl, ihr]

/-- Every tree has at least one node. -/
theorem BTree.size_pos : ∀ t : BTree, 1 ≤ t.size := by
  intro t
  cases t with
  | leaf v ip ns wns => exact Nat.le_refl 1
  | node f th iv ip v ns wns l r => simp [BTree.size]

/-- Shape of each entry of the flattened array: a leaf entry carries the
`-1` sentinels, and a split entry's children lie strictly between its own
position and the end of the subtree's block. -/
theorem flattenAux_spec :
    ∀ (t : BTree) (b k : Nat) (nd : NodeRec), nthNode (flattenAux t b) k = some nd →
      (nd.feature_index = -1 ∧ nd.left_child = -1 ∧ nd.right_child = -1) ∨
      (0 ≤ nd.feature_index ∧
       ((b + k : Nat) : Int) < nd.left_child ∧ nd.left_child < (b : Int) + t.size ∧
       ((b + k : Nat) : Int) < nd.right_child ∧ nd.right_child < (b : Int) + t.size) := by
  intro t
  induction t with
  | leaf v ip ns wns =>
    intro b k nd h
    cases k with
    | zero =>
      cases h
      left
      exact ⟨rfl, rfl, rfl⟩
    | succ k => cases h
  | node f th iv ip v ns wns l r ihl ihr =>
    intro b k nd h
    have hlsize : (flattenAux l (b + 1)).length = l.size := flattenAux_length l (b + 1)
    have hl1 : 1 ≤ l.size := BTree.size_pos l
    have hr1 : 1 ≤ r.size := BTree.size_pos r
    cases k with
    | zero =>
      cases h
      right
      refine ⟨Int.ofNat_nonneg f, ?_, ?_, ?_, ?_⟩ <;>
        simp [BTree.size] <;> omega
    | succ k =>
      have h' : nthNode (flattenAux l (b + 1) ++ flattenAux r (b + 1 + l.size)) k = some nd := h
      by_cases hk : k < l.size
      · rw [nthNode_append_left _ _ k (by rw [hlsize]; exact hk)] at h'
        rcases ihl (b + 1) k nd h' with hc | hc
        · exact Or.inl hc
        · right
          rcases hc with ⟨h1, h2, h3, h4, h5⟩
          refine ⟨h1, ?_, ?_, ?_, ?_⟩ <;> simp [BTree.size] at * <;> omega
      · rw [nthNode_append_right _ _ k (by rw [hlsize]; omega)] at h'
        rw [hlsize] at h'
        rcases ihr (b + 1 + l.size) (k - l.size) nd h' with hc | hc
        · exact Or.inl hc
        · right
          rcases hc with ⟨h1, h2, h3, h4, h5⟩
          refine ⟨h1, ?_, ?_, ?_, ?_⟩ <;> simp [BTree.size] at * <;> omega

/-- The node array of any built tree satisfies the invariant of
section 3. -/
theorem wellFormedNodes_flattenTree (t : BTree) : wellFormedNodes (flattenTree t) := by
  have hlen : (flattenTree t).length = t.size := flattenAux_length t 0
  constructor
  · intro hnil
    rw [hnil] at hlen
    have := BTree.size_pos t
    simp at hlen
    omega
  · intro k nd h
    have hspec := flattenAux_spec t 0 k nd h
    constructor
    · rcases hspec with hc | hc
      · exact Or.inl hc
      · right
        rcases hc with ⟨h1, h2, h3, h4, h5⟩
        rw [hlen]
        simp at h2 h3 h4 h5
        exact ⟨h1, by omega, by omega, by omega, by omega⟩
    · rcases hspec with hc | hc
      · rw [hc.2.1, hc.2.2]
        exact ⟨by decide, by decide⟩
      · rcases hc with ⟨_, h2, _, h4, _⟩
        simp at h2 h4
        constructor <;> omega

/-- C9: every tree a successful `fit` stores, flattened to the node array
of section 3, satisfies the structural invariant — the array is
non-empty, every non-leaf entry has two valid child indices strictly
greater than its own index, every leaf entry has `feature_index = -1`
with both children unset, and index 0 is the root (it is no entry's
child). -/
theorem c9_node_array_invariant (p : Hyperparams) (clf : Bool) (X : List (List ℚ))
    (y sw : List ℚ) (m : FittedModel) (h : fitF p clf X y sw = .ok m) :
    wellFormedNodes (flattenTree m.tree) :=
  wellFormedNodes_flattenTree m.tree

/-- Witness for C9 at the end-to-end example fit. -/
theorem c9_witness : wellFormedNodes (flattenTree exampleModel.tree) :=
  c9_node_array_invariant exampleParams true exampleX exampleY [] exampleModel (by decide)

/-! ## C5: probability rows -/

/-- A list element read with an in-range index belongs to the list. -/
theorem getD_mem_of_lt {α : Type} :
    ∀ (l : List α) (i : Nat) (d : α), i < l.length → l.getD i d ∈ l := by
  intro l
  induction l with
  | nil => intro i d h; cases h
  | cons a l ih =>
    intro i d h
    cases i with
    | zero => exact List.mem_cons_self a l
    | succ i => exact List.mem_cons_of_mem a (ih i d (Nat.lt_of_succ_lt_succ h))

/-- A list element read with an out-of-range index is the default. -/
theorem getD_eq_default_of_le {α : Type} :
    ∀ (l : List α) (i : Nat) (d : α), l.length ≤ i → l.getD i d = d := by
  intro l
  induction l with
  | nil => intro i d _; rfl
  | cons a l ih =>
    intro i d h
    cases i with
    | zero => cases h
    | succ i => exact ih i d (Nat.le_of_succ_le_succ h)

/-- Summing a pointwise sum of two functions over a list. -/
theorem sum_map_add {α : Type} (l : List α) (f g : α → ℚ) :
    (l.map (fun a => f a + g a)).sum = (l.map f).sum + (l.map g).sum := by
  induction l with
  | nil => simp
  | cons a l ih => simp [ih]; ring

/-- A one-hot sum over a list not containing the key is zero. -/
theorem sum_map_ite_zero (cs : List ℚ) (a x : ℚ) (ha : a ∉ cs) :
    (cs.map (fun cl => if a = cl then x else 0)).sum = 0 := by
  induction cs with
  | nil => simp
  | cons b cs ih =>
    have hab : a ≠ b := fun hab => ha (hab ▸ List.mem_cons_self b cs)
    have ha' : a ∉ cs := fun hmem => ha (List.mem_cons_of_mem b hmem)
    simp [hab, ih ha']

/-- A one-hot sum over a duplicate-free list containing the key is the
keyed summand. -/
theorem sum_map_ite_single (cs : List ℚ) (a x : ℚ) (hnd : cs.Nodup) (ha : a ∈ cs) :
    (cs.map (fun cl => if a = cl then x else 0)).sum = x := by
  induction cs with
  | nil => cases ha
  | cons b cs ih =>
    rcases List.mem_cons.mp ha with hab | hmem
    · subst hab
      have hnotin : a ∉ cs := (List.nodup_cons.mp hnd).1
      simp [sum_map_ite_zero cs a x hnotin]
    · have hab : a ≠ b := by
        intro he
        exact (List.nodup_cons.mp hnd).1 (he ▸ hmem)
      simp [hab, ih (List.nodup_cons.mp hnd).2 hmem]

/-- Unfolding `classWeightSum` on a cons cell. -/
theorem classWeightSum_cons (y : List ℚ) (w : Nat → ℚ) (cl : ℚ) (i : Nat) (S : List Nat) :
    classWeightSum y w cl (i :: S) =
      (if y.getD i 0 = cl then w i else 0) + classWeightSum y w cl S := rfl

/-- Unfolding `subsetWeight` on a cons cell. -/
theorem subsetWeight_cons (w : Nat → ℚ) (i : Nat) (S : List Nat) :
    subsetWeight w (i :: S) = w i + subsetWeight w S := rfl

/-- For a classification context whose class table is duplicate-free and
covers every in-range target, the class-count value vector of a subset of
in-range samples sums to the subset's total weight. -/
theorem nodeValueOf_sum_clf (c : BuildCtx) (hclf : c.clf = true) (hnd : c.classes.Nodup)
    (hmem : ∀ i, i < c.nSamples → c.y.getD i 0 ∈ c.classes) :
    ∀ S : List Nat, (∀ i ∈ S, i < c.nSamples) → (nodeValueOf c S).sum = subsetWeight c.w S := by
  intro S
  induction S with
  | nil =>
    intro _
    simp [nodeValueOf, hclf, classWeightSum, subsetWeight]
  | cons i S ih =>
    intro hS
    have hiS : i < c.nSamples := hS i (List.mem_cons_self i S)
    have hrest : ∀ j ∈ S, j < c.nSamples := fun j hj => hS j (List.mem_cons_of_mem i hj)
    have hin : c.y.getD i 0 ∈ c.classes := hmem i hiS
    calc (nodeValueOf c (i :: S)).sum
        = (c.classes.map (fun cl =>
            (if c.y.getD i 0 = cl then c.w i else 0) + classWeightSum c.y c.w cl S)).sum := by
          simp [nodeValueOf, hclf, classWeightSum_cons]
      _ = (c.classes.map (fun cl => if c.y.getD i 0 = cl then c.w i else 0)).sum +
          (c.classes.map (fun cl => classWeightSum c.y c.w cl S)).sum :=
          sum_map_add c.classes _ _
      _ = c.w i + (nodeValueOf c S).sum := by
          rw [sum_map_ite_single c.classes _ _ hnd hin]
          simp [nodeValueOf, hclf]
      _ = c.w i + subsetWeight c.w S := by rw [ih hrest]
      _ = subsetWeight c.w (i :: S) := (subsetWeight_cons c.w i S).symm

/-- Non-negativity of a subset weight under non-negative weights. -/
theorem subsetWeight_nonneg (w : Nat → ℚ) :
    ∀ S : List Nat, (∀ i ∈ S, 0 ≤ w i) → 0 ≤ subsetWeight w S := by
  intro S
  induction S with
  | nil => intro _; simp [subsetWeight]
  | cons i S ih =>
    intro h
    rw [subsetWeight_cons]
    have h1 := h i (List.mem_cons_self i S)
    have h2 := ih (fun j hj => h j (List.mem_cons_of_mem i hj))
    linarith

/-- Positivity of a non-empty subset's weight under positive weights. -/
theorem subsetWeight_pos (w : Nat → ℚ) :
    ∀ S : List Nat, S ≠ [] → (∀ i ∈ S, 0 < w i) → 0 < subsetWeight w S := by
  intro S
  cases S with
  | nil => intro h; cases h rfl
  | cons i S =>
    intro _ h
    rw [subsetWeight_cons]
    have h1 := h i (List.mem_cons_self i S)
    have h2 := subsetWeight_nonneg w S (fun j hj => le_of_lt (h j (List.mem_cons_of_mem i hj)))
    linarith

/-- Each accepted candidate split partitions its subset into two
well-formed child subsets. -/
theorem candidateSplits_good (c : BuildCtx) (S fs : List Nat) (sr : SplitResult)
    (hin : sr ∈ candidateSplits c S fs) (hS : goodSub c S) (hmsl : 1 ≤ c.msl) :
    goodSub c sr.left ∧ goodSub c sr.right := by
  simp only [candidateSplits, List.mem_flatMap, List.mem_filterMap] at hin
  obtain ⟨f, _, t, _, heq⟩ := hin
  split_ifs at heq with hcond
  · cases heq
    obtain ⟨hL, hR, _, _⟩ := hcond
    refine ⟨⟨?_, ?_⟩, ⟨?_, ?_⟩⟩
    · exact List.ne_nil_of_length_pos (Nat.lt_of_lt_of_le hmsl hL)
    · intro i hi
      exact hS.2 i (List.mem_of_mem_filter hi)
    · exact List.ne_nil_of_length_pos (Nat.lt_of_lt_of_le hmsl hR)
    · intro i hi
      exact hS.2 i (List.mem_of_mem_filter hi)

/-- The result of `chooseBest` is one of the candidates or the initial
accumulator. -/
theorem chooseBest_mem :
    ∀ (l : List SplitResult) (acc : Option SplitResult) (sr : SplitResult),
      chooseBest acc l = some sr → sr ∈ l ∨ acc = some sr := by
  intro l
  induction l with
  | nil => intro acc sr h; exact Or.inr h
  | cons a l ih =>
    intro acc sr h
    rcases ih _ sr h with hmem | hacc
    · exact Or.inl (List.mem_cons_of_mem a hmem)
    · cases acc with
      | none =>
        cases hacc
        exact Or.inl (List.mem_cons_self a l)
      | some b =>
        dsimp only at hacc
        by_cases hlt : b.improvement < a.improvement
        · rw [if_pos hlt] at hacc
          cases hacc
          exact Or.inl (List.mem_cons_self a l)
        · rw [if_neg hlt] at hacc
          exact Or.inr hacc

/-- The split the splitter selects partitions its subset into two
well-formed child subsets. -/
theorem bestSplitOf_good (c : BuildCtx) (S : List Nat) (s : Nat) (sr : SplitResult)
    (h : bestSplitOf c S s = some sr) (hS : goodSub c S) (hmsl : 1 ≤ c.msl) :
    goodSub c sr.left ∧ goodSub c sr.right := by
  rcases chooseBest_mem _ none sr h with hmem | habs
  · exact candidateSplits_good c S _ sr hmem hS hmsl
  · cases habs

/-- Traversal always returns one of the tree's leaf values. -/
theorem predictValue_mem_leafValues : ∀ (t : BTree) (x : List ℚ),
    predictValue t x ∈ leafValues t := by
  intro t
  induction t with
  | leaf v ip ns wns => intro x; simp [predictValue, leafValues]
  | node f th iv ip v ns wns l r ihl ihr =>
    intro x
    simp only [predictValue, leafValues]
    split
    · exact List.mem_append_left _ (ihl x)
    · exact List.mem_append_right _ (ihr x)

/-- A leaf made from a well-formed subset has well-formed provenance. -/
theorem makeLeaf_goodLeafValues (c : BuildCtx) (S : List Nat) (hS : goodSub c S) :
    goodLeafValues c (makeLeaf c S) := by
  intro v hv
  simp only [makeLeaf, leafValues, List.mem_singleton] at hv
  exact ⟨S, hS, hv⟩

/-- Depth-first building from a well-formed subset gives every leaf
well-formed provenance. -/
theorem buildDF_goodLeaves (c : BuildCtx) (hmsl : 1 ≤ c.msl) :
    ∀ (fuel : Nat) (S : List Nat) (d s : Nat), goodSub c S →
      goodLeafValues c (buildDF c fuel S d s) := by
  intro fuel
  induction fuel with
  | zero => intro S d s hS; exact makeLeaf_goodLeafValues c S hS
  | succ fuel ih =>
    intro S d s hS
    simp only [buildDF]
    by_cases hstop : stopCond c S d
    · rw [if_pos hstop]
      exact makeLeaf_goodLeafValues c S hS
    · rw [if_neg hstop]
      cases hbs : bestSplitOf c S s with
      | none => exact makeLeaf_goodLeafValues c S hS
      | some sr =>
        have hgood := bestSplitOf_good c S s sr hbs hS hmsl
        intro v hv
        simp only [leafValues] at hv
        rcases List.mem_append.mp hv with hvl | hvr
        · exact ih sr.left (d + 1) (lcgNext (2 * s)) hgood.1 v hvl
        · exact ih sr.right (d + 1) (lcgNext (2 * s + 1)) hgood.2 v hvr

/-- Expansion preserves the provenance invariant of a partial tree. -/
theorem expandAt_pendGood (c : BuildCtx) (hmsl : 1 ≤ c.msl) :
    ∀ (t : PTree) (path : List Bool), pendGood c t → pendGood c (expandAt c t path) := by
  intro t
  induction t with
  | pleaf v ip ns wns =>
    intro path hp
    cases path <;> exact hp
  | ppend S d s =>
    intro path hp
    cases path with
    | nil =>
      simp only [expandAt]
      cases hbs : bestSplitOf c S s with
      | none => exact ⟨S, hp, rfl⟩
      | some sr =>
        have hgood := bestSplitOf_good c S s sr hbs hp hmsl
        exact ⟨hgood.1, hgood.2⟩
    | cons b path => exact hp
  | pnode f th iv ip v ns wns l r ihl ihr =>
    intro path hp
    cases path with
    | nil => exact hp
    | cons b path =>
      cases b with
      | false => exact ⟨ihl path hp.1, hp.2⟩
      | true => exact ⟨hp.1, ihr path hp.2⟩

/-- The best-first loop preserves the provenance invariant. -/
theorem bfLoop_pendGood (c : BuildCtx) (hmsl : 1 ≤ c.msl) (mx : Nat) :
    ∀ (fuel : Nat) (t : PTree), pendGood c t → pendGood c (bfLoop c mx fuel t) := by
  intro fuel
  induction fuel with
  | zero => intro t hp; exact hp
  | succ fuel ih =>
    intro t hp
    simp only [bfLoop]
    by_cases hcnt : mx ≤ t.leafCount
    · rw [if_pos hcnt]; exact hp
    · rw [if_neg hcnt]
      cases pickBest none (pendingCandidates c t) with
      | none => exact hp
      | some path => exact ih _ (expandAt_pendGood c hmsl t path hp)

/-- Finalizing a partial tree with the provenance invariant gives every
leaf well-formed provenance. -/
theorem finalizePTree_goodLeaves (c : BuildCtx) :
    ∀ t : PTree, pendGood c t → goodLeafValues c (finalizePTree c t) := by
  intro t
  induction t with
  | pleaf v ip ns wns =>
    intro hp v' hv'
    simp only [finalizePTree, leafValues, List.mem_singleton] at hv'
    exact hv' ▸ hp
  | ppend S d s =>
    intro hp
    exact makeLeaf_goodLeafValues c S hp
  | pnode f th iv ip v ns wns l r ihl ihr =>
    intro hp v' hv'
    simp only [finalizePTree, leafValues] at hv'
    rcases List.mem_append.mp hv' with hvl | hvr
    · exact ihl hp.1 v' hvl
    · exact ihr hp.2 v' hvr

/-- Every leaf of the tree built by `fit` has well-formed provenance. -/
theorem builtTree_goodLeaves (p : Hyperparams) (clf : Bool) (X : List (List ℚ)) (y sw : List ℚ)
    (hmsl : 1 ≤ (mkCtx p clf X y sw).msl) (hn : X.length ≠ 0) :
    goodLeafValues (mkCtx p clf X y sw) (builtTree p clf X y sw) := by
  have hroot : goodSub (mkCtx p clf X y sw) (List.range X.length) := by
    constructor
    · intro hnil
      rw [List.range_eq_nil] at hnil
      exact hn hnil
    · intro i hi
      exact List.mem_range.mp hi
  unfold builtTree
  split_ifs
  · exact buildDF_goodLeaves _ hmsl _ _ _ _ hroot
  · exact finalizePTree_goodLeaves _ _
      (bfLoop_pendGood _ hmsl _ _ _ hroot)

/-- The effective weight of an in-range sample is positive when the
supplied sample weights and class weights are positive. -/
theorem effWeight_pos (p : Hyperparams) (clf : Bool) (y sw : List ℚ)
    (hsw : ∀ a ∈ sw, 0 < a) (hcw : ∀ a ∈ p.class_weight, 0 < a)
    (i : Nat) (hi : sw = [] ∨ i < sw.length) :
    0 < effWeight p clf y sw i := by
  unfold effWeight
  apply mul_pos
  · by_cases hempty : sw = []
    · simp [hempty]
    · have hlen : i < sw.length := by
        rcases hi with h | h
        · exact absurd h hempty
        · exact h
      have : sw.isEmpty = false := by
        cases sw with
        | nil => exact absurd rfl hempty
        | cons a l => rfl
      rw [this]
      simp only [Bool.false_eq_true, if_false]
      exact hsw _ (getD_mem_of_lt sw i 0 hlen)
  · by_cases hcond : clf = true ∧ ¬ p.class_weight.isEmpty = true
    · rw [if_pos hcond]
      rcases Nat.lt_or_ge (classIndex y.dedup (y.getD i 0)) p.class_weight.length with hlt | hge
      · exact hcw _ (getD_mem_of_lt p.class_weight _ 1 hlt)
      · rw [getD_eq_default_of_le p.class_weight _ 1 hge]
        exact one_pos
    · rw [if_neg hcond]
      exact one_pos

/-- C5 (amended): for a classifier fitted with positive sample weights
(or the all-ones default) and positive class weights (or the empty
default), every row of `predict_proba` sums to exactly 1. -/
theorem c5_proba_rows_sum_one (p : Hyperparams) (X : List (List ℚ)) (y sw : List ℚ)
    (m : FittedModel) (Z : List (List ℚ))
    (hfit : fitF p true X y sw = .ok m)
    (hsw : ∀ a ∈ sw, 0 < a) (hcw : ∀ a ∈ p.class_weight, 0 < a) :
    ∃ rs, predictProbaM m Z = .ok rs ∧ ∀ row ∈ rs, row.sum = 1 := by
  have hv := fitF_ok_validate hfit
  have hm := fitF_ok_eq hfit
  subst hm
  rw [validateFit_none_iff] at hv
  obtain ⟨hbad, hemp, hshape, _⟩ := hv
  unfold emptyInput at hemp
  push_neg at hemp
  have hn : X.length ≠ 0 := hemp.1
  unfold shapeBad at hshape
  push_neg at hshape
  have hyl : X.length = y.length := hshape.1
  have hswl : sw = [] ∨ sw.length = X.length := by
    by_cases hempty : sw = []
    · exact Or.inl hempty
    · exact Or.inr (hshape.2 hempty)
  have hmsl : 1 ≤ (mkCtx p true X y sw).msl := by
    unfold badHyper at hbad
    push_neg at hbad
    have h2 := hbad.2.1
    show 1 ≤ p.min_samples_leaf.toNat
    omega
  have hleaves := builtTree_goodLeaves p true X y sw hmsl hn
  refine ⟨Z.map (fun x =>
      (predictValue (buildModel p true X y sw).tree x).map
        (fun q => q / (predictValue (buildModel p true X y sw).tree x).sum)), ?_, ?_⟩
  · unfold predictProbaM
    rw [buildModel_isClf]
    simp
  · intro row hrow
    rcases List.mem_map.mp hrow with ⟨x, _, hrw⟩
    subst hrw
    have hvmem : predictValue (buildModel p true X y sw).tree x ∈
        leafValues (builtTree p true X y sw) := by
      rw [buildModel_tree]
      exact predictValue_mem_leafValues _ x
    obtain ⟨S, hSgood, hveq⟩ := hleaves _ hvmem
    have hnd : (mkCtx p true X y sw).classes.Nodup := List.nodup_dedup y
    have hmem : ∀ i, i < (mkCtx p true X y sw).nSamples →
        (mkCtx p true X y sw).y.getD i 0 ∈ (mkCtx p true X y sw).classes := by
      intro i hi
      show y.getD i 0 ∈ y.dedup
      rw [List.mem_dedup]
      apply getD_mem_of_lt
      have : i < X.length := hi
      omega
    have hsum : (predictValue (buildModel p true X y sw).tree x).sum =
        subsetWeight (mkCtx p true X y sw).w S := by
      rw [hveq]
      exact nodeValueOf_sum_clf (mkCtx p true X y sw) rfl hnd hmem S hSgood.2
    have hwpos : ∀ i ∈ S, 0 < (mkCtx p true X y sw).w i := by
      intro i hiS
      have hiX : i < X.length := hSgood.2 i hiS
      apply effWeight_pos p true y sw hsw hcw i
      rcases hswl with hl | hr
      · exact Or.inl hl
      · exact Or.inr (by omega)
    have hpos : 0 < subsetWeight (mkCtx p true X y sw).w S :=
      subsetWeight_pos _ S hSgood.1 hwpos
    rw [sum_map_div, hsum, div_self (ne_of_gt hpos)]

/-- Counterexample for C5 as stated: a classifier fitted with a zero
sample weight has a leaf whose value vector is all-zero, and the
corresponding `predict_proba` row is `[0]`, which does not sum to 1. -/
theorem c5_counterexample :
    fitF oneFeatParams true [[0]] [0] [0] = .ok zeroWeightModel ∧
    predictProbaM zeroWeightModel [[0]] = .ok [[0]] ∧
    ([(0 : ℚ)].sum ≠ 1) :=
  ⟨by decide, by rfl, by decide⟩

/-- Witness for C5 at the end-to-end example fit (empty sample weight and
class weight vectors, so the positivity hypotheses hold vacuously). -/
theorem c5_witness :
    ∃ rs, predictProbaM exampleModel exampleX = .ok rs ∧ ∀ row ∈ rs, row.sum = 1 :=
  c5_proba_rows_sum_one exampleParams exampleX exampleY [] exampleModel exampleX
    (by decide) (by intro a ha; cases ha) (by intro a ha; cases ha)
